import Mathlib

/-!
Verification of the pyglottolog command layer (src/pyglottolog/cli.py)
against its design specification.

The file embeds, as executable Lean definitions, the parts of the code the
claims are about:

* the whole-tree validator `check_tree` (cli.py lines 80-140): per-node
  diagnostics, the two running counters, and the function's return value;
* the `recode` command (cli.py lines 143-157);
* the `stats` command (cli.py lines 256-270);
* the flat transcoder round trip (`tree2lff` / `lff2tree` delegate to the
  `pyglottolog.lff` module, which is not part of the visible source; its
  `encode` / `decode` pair is modelled from the specification, section 4.3).

Machine integers play no role; strings are Lean `String`, containers are
Lean lists (a `collections.Counter` is modelled by the stream of elements
it was updated with, so that counts are list counts).
-/

/-- Languoid levels: exactly family, language and dialect
(pyglottolog.languoids.Level as used by cli.py). -/
inductive Level where
  | family
  | language
  | dialect
deriving DecidableEq, Repr

/-- The `name` attribute of a level member, as used in
`by_level.update([lang.level.name])`. -/
def Level.lvlName : Level → String
  | .family => "family"
  | .language => "language"
  | .dialect => "dialect"

/-- One record of the external ISO-639-3 registry:
`code -> (is_retired, change_to)` (clldutils.iso_639_3 as consumed by
check_tree lines 97-106). -/
structure IsoCode where
  is_retired : Bool
  change_to : List String
deriving DecidableEq, Repr

/-- The external ISO registry: a read-only lookup from code to record;
`none` means the code is not in the registry. -/
def IsoReg : Type := String → Option IsoCode

/-- A child node as read by check_tree (`child.level`, `child.id`). -/
structure ChildRef where
  id : String
  level : Level
deriving DecidableEq, Repr

/-- A languoid as read by the check_tree loop.  `level` is total because
line 93 (`by_level.update([lang.level.name])`) dereferences it before any
check runs, so every completed iteration has an actual level; likewise for
children, which are themselves iterated.  `parentLevel` is `some l` when
`lang.parent` exists and has level `l`, `none` when the node is a root.
`dirEntries` lists the `is_dir()` flag of each entry of the node's
directory, which is all line 124-126 reads of it. -/
structure Languoid where
  id : String
  name : String
  glottocode : String
  level : Level
  category : String
  iso : Option String
  parentLevel : Option Level
  children : List ChildRef
  dirName : String
  dirEntries : List Bool
deriving DecidableEq, Repr

/-- Severity classes of the logger calls in check_tree. -/
inductive Sev where
  | warning
  | error
deriving DecidableEq, Repr

/-- One diagnostic, one constructor per logging call site of check_tree
(lines 99, 103-106, 109, 112, 114, 117, 121, 128), carrying exactly the
data interpolated into the message at that site. -/
inductive Diag where
  | invalidIso (id iso : String)
  | retiredIso (id : String) (code : IsoCode)
  | unregistered (id : String)
  | missingAttr (attr : String) (id : String)
  | invalidDirName (dirName : String)
  | invalidNestingUnder (parentLevel : Level) (id : String)
  | invalidNestingOf (childLevel : Level) (childId : String)
  | familyWithoutChildren (id : String)
deriving DecidableEq, Repr

/-- Which logger method each site uses: the two ISO checks call
`log.warn`, every other site calls `log.error`. -/
def Diag.sev : Diag → Sev
  | .invalidIso _ _ => .warning
  | .retiredIso _ _ => .warning
  | _ => .error

/-- Modelled from the spec: `Glottocode.pattern` lives in
pyglottolog.languoids, outside the visible source.  Section 3 of the spec
defines the identifier pattern as an 8-character code, 4 lowercase letters
followed by 4 digits; `pattern.match` on the directory name is a full
match of that shape. -/
def glottocodePattern (s : String) : Bool :=
  s.length == 8 && (s.toList.take 4).all Char.isLower
    && (s.toList.drop 4).all Char.isDigit

/-- Lines 97-106: the ISO cross-reference checks.  They run only when an
external registry was found (`if iso`) and the node has a truthy `iso`
attribute; an unresolvable code logs a warning, a resolvable retired code
on a non-Bookkeeping node logs a warning. -/
def isoChecks (iso : Option IsoReg) (lang : Languoid) : List Diag :=
  match iso with
  | none => []
  | some reg =>
    match lang.iso with
    | none => []
    | some c =>
      if c = "" then []
      else
        match reg c with
        | none => [Diag.invalidIso lang.id c]
        | some ic =>
          if ic.is_retired ∧ lang.category ≠ "Bookkeeping" then
            [Diag.retiredIso lang.id ic]
          else []

/-- Python str.startswith, on the character lists of the two strings. -/
def pyStartswith (s p : String) : Bool :=
  p.toList.isPrefixOf s.toList

/-- Lines 108-109: unregistered-glottocode check, skipped for identifiers
starting with the reserved marker of the ununidentified family. -/
def registryCheck (gcs : List String) (lang : Languoid) : List Diag :=
  if pyStartswith lang.id "unun9" = false ∧ lang.id ∉ gcs then
    [Diag.unregistered lang.id]
  else []

/-- Lines 110-112: `for attr in ['level', 'name', 'glottocode']` emptiness
checks.  A Python enum member is always truthy, so the `level` iteration
can never fire for a node that reached this point (see `Languoid.level`);
it is kept to mirror the loop. -/
def attrChecks (lang : Languoid) : List Diag :=
  (if False then [Diag.missingAttr "level" lang.id] else [])
    ++ (if lang.name = "" then [Diag.missingAttr "name" lang.id] else [])
    ++ (if lang.glottocode = "" then [Diag.missingAttr "glottocode" lang.id] else [])

/-- Lines 113-114: the directory-name check matches `lang.dir.name`
against the glottocode pattern and interpolates the directory name (not
the node's identifier) into the message. -/
def dirNameCheck (lang : Languoid) : List Diag :=
  if glottocodePattern lang.dirName then [] else [Diag.invalidDirName lang.dirName]

/-- Lines 115-128: level-specific checks.  A language checks its parent's
level and each child's level; a family scans its directory entries for at
least one subdirectory (`for ... break / else: error`); a dialect is not
checked. -/
def nestingChecks (lang : Languoid) : List Diag :=
  match lang.level with
  | .language =>
    (match lang.parentLevel with
     | some pl => if pl ≠ Level.family then [Diag.invalidNestingUnder pl lang.id] else []
     | none => [])
      ++ lang.children.flatMap (fun c =>
          if c.level ≠ Level.dialect then [Diag.invalidNestingOf c.level c.id] else [])
  | .family =>
    if lang.dirEntries.any (fun b => b) then [] else [Diag.familyWithoutChildren lang.id]
  | .dialect => []

/-- All diagnostics one iteration of the check_tree loop logs for one
languoid, in program order. -/
def checkNode (iso : Option IsoReg) (gcs : List String) (lang : Languoid) : List Diag :=
  isoChecks iso lang ++ registryCheck gcs lang ++ attrChecks lang
    ++ dirNameCheck lang ++ nestingChecks lang

/-- The mutable state of the check_tree loop: the log stream of
diagnostics and the two counters (each counter kept as the stream of
elements it was updated with). -/
structure CheckState where
  diags : List Diag
  by_level : List String
  by_category : List String
deriving DecidableEq, Repr

/-- One iteration of `for lang in Glottolog(args.repos).languoids()`:
update `by_level` with the level name, update `by_category` with the
category for language-level nodes only, and log the node's diagnostics. -/
def checkStep (iso : Option IsoReg) (gcs : List String)
    (st : CheckState) (lang : Languoid) : CheckState :=
  ⟨st.diags ++ checkNode iso gcs lang,
   st.by_level ++ [lang.level.lvlName],
   st.by_category ++ (if lang.level = Level.language then [lang.category] else [])⟩

/-- The whole check_tree loop over the loaded forest. -/
def checkTreeRun (iso : Option IsoReg) (gcs : List String)
    (langs : List Languoid) : CheckState :=
  langs.foldl (checkStep iso gcs) ⟨[], [], []⟩

/-- The value check_tree returns to its caller: line 140 is
`return by_level` — only the by-level counter. -/
def check_tree (iso : Option IsoReg) (gcs : List String)
    (langs : List Languoid) : List String :=
  (checkTreeRun iso gcs langs).by_level

/-- The result of `find_languoid` as read by the recode command: node
name and backing directory (parent path segments plus base name). -/
structure RLanguoid where
  name : String
  dirParent : List String
  dirName : String
deriving DecidableEq, Repr

/-- Filesystem mutations the recode command can perform, in the order the
code issues them (copytree, write_info, remove, rmtree). -/
inductive FsAction where
  | copytree (src dst : List String)
  | writeInfo (dir : List String)
  | removeFile (path : List String)
  | rmtree (path : List String)
deriving DecidableEq, Repr

/-- cli.py lines 143-157: the recode command.  `lookup` is the result of
`find_languoid(glottocode=args.args[0])` (outside the visible source, so
passed as an input), `fromName` stands for `Glottocode.from_name`, and
`code` is the command argument.  A missing languoid raises ParserError
before any filesystem action; otherwise the planned actions are the copy
of the old directory, the metadata write, the removal of the stale ini
file and the removal of the old directory. -/
def recode (fromName : String → String) (lookup : Option RLanguoid) (code : String) :
    Except String (List FsAction × String) :=
  match lookup with
  | none => Except.error "languoid not found"
  | some lang =>
    let newId := fromName lang.name
    let oldDir := lang.dirParent ++ [lang.dirName]
    let newDir := lang.dirParent ++ [newId]
    Except.ok ([FsAction.copytree oldDir newDir,
                FsAction.writeInfo newDir,
                FsAction.removeFile (newDir ++ [code ++ ".ini"]),
                FsAction.rmtree oldDir], newId)

/-- The filesystem actions an invocation of recode performs: none when
it aborts with ParserError. -/
def fsActions : Except String (List FsAction × String) → List FsAction
  | .error _ => []
  | .ok (acts, _) => acts

/-- The metadata of one languoid as iterated by the stats command: an
ordered list of sections, each a section name paired with an ordered list
of option/value pairs (`l.cfg`). -/
abbrev Cfg : Type := List (String × List (String × String))

/-- cli.py lines 256-263: the counting loops of the stats command,
recorded as the stream of `ops[sec].update([opt])` calls.  An update is
issued exactly when `l.cfg.get(sec, opt)` is truthy, i.e. the stored
value is a non-empty string. -/
def statsOps (langs : List Cfg) : List (String × String) :=
  langs.foldl (fun acc cfg =>
    cfg.foldl (fun acc2 sec =>
      sec.2.foldl (fun acc3 ov =>
        if ov.2 ≠ "" then acc3 ++ [(sec.1, ov.1)] else acc3) acc2) acc) []

/-- Modelled from the spec: the flat transcoder lives in pyglottolog.lff,
outside the visible source; sections 4.3 and 8 of the spec define it.
The attributes of one node as carried by one line of a flat document:
level marker, identifier, optional cross-reference code, and name. -/
structure NodeAttrs where
  level : Level
  id : String
  iso : Option String
  name : String
deriving DecidableEq, Repr

/-- Modelled from the spec: a languoid subtree as handled by the flat
transcoder — node attributes plus the list of child subtrees. -/
inductive LTree where
  | node (attrs : NodeAttrs) (children : List LTree)

/-- Modelled from the spec: one line of a flat document; the leading
whitespace of the textual line encodes `depth` (one fixed-width indent
unit per ancestor level), the rest of the line carries the attributes. -/
structure LineRec where
  depth : Nat
  attrs : NodeAttrs
deriving DecidableEq, Repr

mutual
/-- Modelled from the spec: emit one node as a line at depth `d` followed
by its full subtree in depth-first pre-order, one extra indent unit per
level. -/
def encodeTree (d : Nat) : LTree → List LineRec
  | .node a cs => ⟨d, a⟩ :: encodeForest (d + 1) cs
/-- Modelled from the spec: emit a forest in iteration order, each entry
followed immediately by its subtree. -/
def encodeForest (d : Nat) : List LTree → List LineRec
  | [] => []
  | t :: ts => encodeTree d t ++ encodeForest d ts
end

mutual
/-- All identifiers of a subtree in pre-order. -/
def treeIds : LTree → List String
  | .node a cs => a.id :: forestIds cs
/-- All identifiers of a forest in pre-order. -/
def forestIds : List LTree → List String
  | [] => []
  | t :: ts => treeIds t ++ forestIds ts
end

/-- Modelled from the spec: the operation-scoped decoder errors of
section 4.3 / 7 (MalformedIndent, UnbalancedIndent, DuplicateLine). -/
inductive DecodeError where
  | malformedIndent
  | unbalancedIndent
  | duplicateLine
deriving DecidableEq, Repr

/-- Modelled from the spec: rebuild a forest from lines — a line whose
depth is `d` is a child of the nearest preceding line with depth `d - 1`,
and a depth jump greater than one relative to the previous line is a
MalformedIndent error.  Returns the parsed forest of depth-`d` entries
together with the first suffix of lines whose head is shallower than `d`
(bundled with a length bound used for termination). -/
def parseForest (d : Nat) (lines : List LineRec) :
    Except DecodeError (List LTree × { rest : List LineRec // rest.length ≤ lines.length }) :=
  match lines with
  | [] => .ok ([], ⟨[], Nat.le_refl 0⟩)
  | l :: ls =>
    if l.depth < d then .ok ([], ⟨l :: ls, Nat.le_refl _⟩)
    else if l.depth = d then
      match parseForest (d + 1) ls with
      | .error e => .error e
      | .ok (cs, ⟨rest, hrest⟩) =>
        match parseForest d rest with
        | .error e => .error e
        | .ok (ts, ⟨rest2, hrest2⟩) =>
          .ok (.node l.attrs cs :: ts,
            ⟨rest2, Nat.le_trans hrest2 (Nat.le_trans hrest (Nat.le_succ _))⟩)
    else .error .malformedIndent
termination_by lines.length
decreasing_by
  · simp
  · simp
    exact Nat.lt_succ_of_le hrest

/-- Modelled from the spec: decode one document from its top level;
material left over that could not attach below the document's top level
(a computed depth escaping the document, spec: UnbalancedIndent) aborts
the operation.  Depths recovered from leading whitespace are naturally
non-negative, so on parser output this branch cannot fire. -/
def decodeDoc (lines : List LineRec) : Except DecodeError (List LTree) :=
  match parseForest 0 lines with
  | .error e => .error e
  | .ok (ts, ⟨[], _⟩) => .ok ts
  | .ok (_, ⟨_ :: _, _⟩) => .error .unbalancedIndent

/-- Modelled from the spec: partition the top-level entries of the forest
by the classifier predicate into the two parallel documents, each entry
emitted with its full subtree in pre-order. -/
def encode (forest : List LTree) (classify : LTree → Bool) :
    List LineRec × List LineRec :=
  (encodeForest 0 (forest.filter classify),
   encodeForest 0 (forest.filter (fun t => !classify t)))

/-- Modelled from the spec: decode the pair of flat documents into one
forest; the same identifier appearing twice across both documents is a
DuplicateLine error.  Every line of encoder output carries an identifier,
so the registry-backed minting path for identifier-less lines (spec 4.3 /
4.1) never runs on a round trip and is not modelled. -/
def decode (docA docB : List LineRec) : Except DecodeError (List LTree) :=
  if ((docA ++ docB).map (fun l => l.attrs.id)).Nodup then
    match decodeDoc docA with
    | .error e => .error e
    | .ok ta =>
      match decodeDoc docB with
      | .error e => .error e
      | .ok tb => .ok (ta ++ tb)
  else .error .duplicateLine

/-- A list of lines that cannot extend a forest of entries at depth `d`:
it is empty or starts shallower than `d`. -/
def restOk (d : Nat) : List LineRec → Prop
  | [] => True
  | l :: _ => l.depth < d

/-- The concrete forest of spec section 8: one family with a language
and a dialect below it, plus one unrelated bookkeeping language. -/
def sampleForest : List LTree :=
  [LTree.node ⟨Level.family, "atla1234", none, "Atlantic"⟩
    [LTree.node ⟨Level.language, "wolo1235", some "wol", "Wolof"⟩
      [LTree.node ⟨Level.dialect, "gamb1236", none, "Gambian Wolof"⟩ []]],
   LTree.node ⟨Level.language, "book1237", none, "Bookkeeping entry"⟩ []]

/-- The partition predicate of spec section 8: a top-level entry goes to
document A when its subtree is the lone bookkeeping entry. -/
def sampleClassify : LTree → Bool
  | .node a _ => a.id == "book1237"

/-- A node satisfying all checks the loop performs: no ISO code, a
registered identifier, non-empty attributes, a pattern-matching directory
name, and level-appropriate structure. -/
def passesAllChecks (gcs : List String) (lang : Languoid) : Prop :=
  lang.iso = none ∧ lang.id ∈ gcs ∧ lang.name ≠ "" ∧ lang.glottocode ≠ "" ∧
  glottocodePattern lang.dirName = true ∧
  (lang.level = Level.language →
    (lang.parentLevel = none ∨ lang.parentLevel = some Level.family) ∧
    ∀ c ∈ lang.children, c.level = Level.dialect) ∧
  (lang.level = Level.family → lang.dirEntries.any (fun b => b) = true)

theorem foldl_checkStep_diags (iso : Option IsoReg) (gcs : List String) :
    ∀ (langs : List Languoid) (st : CheckState),
      (langs.foldl (checkStep iso gcs) st).diags
        = st.diags ++ langs.flatMap (checkNode iso gcs) := by
  intro langs
  induction langs with
  | nil => intro st; simp
  | cons lang langs ih =>
    intro st
    simp only [List.foldl_cons, ih, checkStep, List.flatMap_cons, List.append_assoc]

theorem foldl_checkStep_by_level (iso : Option IsoReg) (gcs : List String) :
    ∀ (langs : List Languoid) (st : CheckState),
      (langs.foldl (checkStep iso gcs) st).by_level
        = st.by_level ++ langs.map (fun l => l.level.lvlName) := by
  intro langs
  induction langs with
  | nil => intro st; simp
  | cons lang langs ih =>
    intro st
    simp only [List.foldl_cons, ih, checkStep, List.map_cons]
    simp

theorem foldl_checkStep_by_category (iso : Option IsoReg) (gcs : List String) :
    ∀ (langs : List Languoid) (st : CheckState),
      (langs.foldl (checkStep iso gcs) st).by_category
        = st.by_category
          ++ (langs.filter (fun l => l.level == Level.language)).map (fun l => l.category) := by
  intro langs
  induction langs with
  | nil => intro st; simp
  | cons lang langs ih =>
    intro st
    simp only [List.foldl_cons, ih, checkStep]
    by_cases h : lang.level = Level.language
    · simp [h, List.filter_cons]
    · simp [h, List.filter_cons]

theorem isoChecks_mem_shape {iso : Option IsoReg} {lang : Languoid} {d : Diag}
    (h : d ∈ isoChecks iso lang) :
    (∃ i c, d = Diag.invalidIso i c) ∨ (∃ i ic, d = Diag.retiredIso i ic) := by
  unfold isoChecks at h
  split at h
  · simp at h
  · split at h
    · simp at h
    · split at h
      · simp at h
      · split at h
        · simp at h
          exact Or.inl ⟨_, _, h⟩
        · split at h
          · simp at h
            exact Or.inr ⟨_, _, h⟩
          · simp at h

theorem registryCheck_mem_shape {gcs : List String} {lang : Languoid} {d : Diag}
    (h : d ∈ registryCheck gcs lang) : d = Diag.unregistered lang.id := by
  unfold registryCheck at h
  split at h
  · simpa using h
  · simp at h

theorem attrChecks_mem_shape {lang : Languoid} {d : Diag}
    (h : d ∈ attrChecks lang) : ∃ a, d = Diag.missingAttr a lang.id := by
  unfold attrChecks at h
  simp only [if_false, List.nil_append, List.mem_append] at h
  rcases h with h | h <;> split at h <;> simp at h <;> exact ⟨_, h⟩

theorem dirNameCheck_mem_shape {lang : Languoid} {d : Diag}
    (h : d ∈ dirNameCheck lang) : d = Diag.invalidDirName lang.dirName := by
  unfold dirNameCheck at h
  split at h
  · simp at h
  · simpa using h

theorem nestingChecks_mem_shape {lang : Languoid} {d : Diag}
    (h : d ∈ nestingChecks lang) :
    (∃ pl, d = Diag.invalidNestingUnder pl lang.id)
      ∨ (∃ l i, d = Diag.invalidNestingOf l i)
      ∨ d = Diag.familyWithoutChildren lang.id := by
  unfold nestingChecks at h
  split at h
  · rcases List.mem_append.1 h with h | h
    · split at h
      · split at h
        · simp at h
          exact Or.inl ⟨_, h⟩
        · simp at h
      · simp at h
    · rcases List.mem_flatMap.1 h with ⟨c, _, hc⟩
      split at hc
      · simp at hc
        exact Or.inr (Or.inl ⟨_, _, hc⟩)
      · simp at hc
  · split at h
    · simp at h
    · simp at h
      exact Or.inr (Or.inr h)
  · simp at h

theorem encodeForest_append (d : Nat) (ts us : List LTree) :
    encodeForest d (ts ++ us) = encodeForest d ts ++ encodeForest d us := by
  induction ts with
  | nil => simp [encodeForest]
  | cons t ts ih => simp [encodeForest, ih]

theorem forestIds_append (ts us : List LTree) :
    forestIds (ts ++ us) = forestIds ts ++ forestIds us := by
  induction ts with
  | nil => simp [forestIds]
  | cons t ts ih => simp [forestIds, ih]

theorem forestIds_eq_flatMap (ts : List LTree) : forestIds ts = ts.flatMap treeIds := by
  induction ts with
  | nil => simp [forestIds]
  | cons t ts ih => simp [forestIds, ih]

theorem encodeForest_map_ids :
    ∀ (n d : Nat) (ts : List LTree), sizeOf ts ≤ n →
      (encodeForest d ts).map (fun l => l.attrs.id) = forestIds ts := by
  intro n
  induction n with
  | zero =>
    intro d ts h
    cases ts with
    | nil => simp [encodeForest, forestIds]
    | cons t ts' =>
      exfalso
      cases t with
      | node a cs => simp at h
  | succ n ih =>
    intro d ts h
    cases ts with
    | nil => simp [encodeForest, forestIds]
    | cons t ts' =>
      cases t with
      | node a cs =>
        have h' := h
        simp at h'
        have hcs : sizeOf cs ≤ n := by omega
        have hts : sizeOf ts' ≤ n := by omega
        simp [encodeForest, encodeTree, forestIds, treeIds, ih d ts' hts,
          ih (d + 1) cs hcs]

theorem restOk_encode_append (d : Nat) (ts' : List LTree) (rest : List LineRec)
    (h : restOk d rest) : restOk (d + 1) (encodeForest d ts' ++ rest) := by
  cases ts' with
  | nil =>
    simp only [encodeForest, List.nil_append]
    cases rest with
    | nil => trivial
    | cons l ls => exact Nat.lt_succ_of_lt h
  | cons t ts'' =>
    cases t with
    | node a cs =>
      simp only [encodeForest, encodeTree, List.cons_append, List.append_assoc]
      exact Nat.lt_succ_self d

theorem parseForest_encode :
    ∀ (n d : Nat) (ts : List LTree) (rest : List LineRec),
      (encodeForest d ts ++ rest).length ≤ n → restOk d rest →
      ∃ hle, parseForest d (encodeForest d ts ++ rest) = .ok (ts, ⟨rest, hle⟩) := by
  intro n
  induction n with
  | zero =>
    intro d ts rest hlen hrest
    cases ts with
    | nil =>
      cases rest with
      | nil => exact ⟨Nat.le_refl _, by simp [encodeForest, parseForest]⟩
      | cons l ls => simp at hlen
    | cons t ts' =>
      exfalso
      cases t with
      | node a cs => simp [encodeForest, encodeTree] at hlen
  | succ n ih =>
    intro d ts rest hlen hrest
    cases ts with
    | nil =>
      cases rest with
      | nil => exact ⟨Nat.le_refl _, by simp [encodeForest, parseForest]⟩
      | cons l ls =>
        refine ⟨Nat.le_refl _, ?_⟩
        have hd : l.depth < d := hrest
        simp [encodeForest, parseForest, hd]
    | cons t ts' =>
      cases t with
      | node a cs =>
        have hshape : encodeForest d (LTree.node a cs :: ts') ++ rest
            = ⟨d, a⟩ :: (encodeForest (d + 1) cs ++ (encodeForest d ts' ++ rest)) := by
          simp [encodeForest, encodeTree]
        have hlen1 : (encodeForest (d + 1) cs ++ (encodeForest d ts' ++ rest)).length ≤ n := by
          rw [hshape] at hlen
          simpa using Nat.le_of_succ_le_succ hlen
        have hro1 : restOk (d + 1) (encodeForest d ts' ++ rest) :=
          restOk_encode_append d ts' rest hrest
        obtain ⟨hle1, heq1⟩ := ih (d + 1) cs (encodeForest d ts' ++ rest) hlen1 hro1
        have hlen2 : (encodeForest d ts' ++ rest).length ≤ n := by
          calc (encodeForest d ts' ++ rest).length
              ≤ (encodeForest (d + 1) cs ++ (encodeForest d ts' ++ rest)).length := by
                simp
            _ ≤ n := hlen1
        obtain ⟨hle2, heq2⟩ := ih d ts' rest hlen2 hrest
        rw [hshape]
        refine ⟨?_, ?_⟩
        · exact Nat.le_trans hle2 (Nat.le_trans (by simp) (Nat.le_succ _))
        · rw [parseForest]
          simp only [Nat.lt_irrefl, if_false, if_pos rfl, heq1, heq2]
          simp

theorem decodeDoc_encodeForest (ts : List LTree) :
    decodeDoc (encodeForest 0 ts) = .ok ts := by
  obtain ⟨hle, heq⟩ :=
    parseForest_encode (encodeForest 0 ts ++ []).length 0 ts [] (Nat.le_refl _) trivial
  rw [show encodeForest 0 ts = encodeForest 0 ts ++ [] from (List.append_nil _).symm]
  unfold decodeDoc
  rw [heq]

/-- C1: for every forest whose node identifiers are distinct (the data
model makes identifiers globally unique) and every partition predicate,
decoding the pair of documents produced by encoding succeeds and yields
the same trees — same nodes, edges and attributes — up to the order of
the top-level entries, which the partition regroups. -/
theorem decode_encode_roundtrip (F : List LTree) (classify : LTree → Bool)
    (hids : (forestIds F).Nodup) :
    ∃ G, decode (encode F classify).1 (encode F classify).2 = Except.ok G ∧
      List.Perm G F := by
  have hperm : List.Perm (F.filter classify ++ F.filter (fun t => !classify t)) F :=
    List.filter_append_perm classify F
  refine ⟨F.filter classify ++ F.filter (fun t => !classify t), ?_, hperm⟩
  have hA := decodeDoc_encodeForest (F.filter classify)
  have hB := decodeDoc_encodeForest (F.filter (fun t => !classify t))
  have hids2 :
      (((encode F classify).1 ++ (encode F classify).2).map (fun l => l.attrs.id)).Nodup := by
    have e1 : ((encode F classify).1 ++ (encode F classify).2).map (fun l => l.attrs.id)
        = forestIds (F.filter classify ++ F.filter (fun t => !classify t)) := by
      show (encodeForest 0 (F.filter classify)
          ++ encodeForest 0 (F.filter (fun t => !classify t))).map (fun l => l.attrs.id) = _
      rw [List.map_append,
        encodeForest_map_ids (sizeOf (F.filter classify)) 0 _ (Nat.le_refl _),
        encodeForest_map_ids (sizeOf (F.filter (fun t => !classify t))) 0 _ (Nat.le_refl _),
        forestIds_append]
    rw [e1, forestIds_eq_flatMap]
    have hp2 : List.Perm (F.flatMap treeIds)
        ((F.filter classify ++ F.filter (fun t => !classify t)).flatMap treeIds) :=
      (hperm.flatMap_right treeIds).symm
    exact hp2.nodup (by rw [← forestIds_eq_flatMap]; exact hids)
  show decode (encode F classify).1 (encode F classify).2 = _
  unfold decode
  rw [if_pos hids2]
  show (match decodeDoc (encodeForest 0 (F.filter classify)) with
    | Except.error e => Except.error e
    | Except.ok ta =>
      match decodeDoc (encodeForest 0 (F.filter (fun t => !classify t))) with
      | Except.error e => Except.error e
      | Except.ok tb => Except.ok (ta ++ tb)) = _
  rw [hA, hB]

theorem unregistered_mem_checkNode {iso : Option IsoReg} {gcs : List String}
    {lang : Languoid} {i : String} :
    Diag.unregistered i ∈ checkNode iso gcs lang ↔
      Diag.unregistered i ∈ registryCheck gcs lang := by
  simp only [checkNode, List.mem_append]
  constructor
  · rintro ((((h | h) | h) | h) | h)
    · rcases isoChecks_mem_shape h with ⟨_, _, he⟩ | ⟨_, _, he⟩ <;> simp at he
    · exact h
    · obtain ⟨a, he⟩ := attrChecks_mem_shape h
      simp at he
    · have he := dirNameCheck_mem_shape h
      simp at he
    · rcases nestingChecks_mem_shape h with ⟨_, he⟩ | ⟨_, _, he⟩ | he <;> simp at he
  · intro h
    exact Or.inl (Or.inl (Or.inl (Or.inr h)))

theorem invalidDirName_mem_checkNode {iso : Option IsoReg} {gcs : List String}
    {lang : Languoid} {n : String} :
    Diag.invalidDirName n ∈ checkNode iso gcs lang ↔
      Diag.invalidDirName n ∈ dirNameCheck lang := by
  simp only [checkNode, List.mem_append]
  constructor
  · rintro ((((h | h) | h) | h) | h)
    · rcases isoChecks_mem_shape h with ⟨_, _, he⟩ | ⟨_, _, he⟩ <;> simp at he
    · have he := registryCheck_mem_shape h
      simp at he
    · obtain ⟨a, he⟩ := attrChecks_mem_shape h
      simp at he
    · exact h
    · rcases nestingChecks_mem_shape h with ⟨_, he⟩ | ⟨_, _, he⟩ | he <;> simp at he
  · intro h
    exact Or.inl (Or.inr h)

theorem nestingUnder_mem_checkNode {iso : Option IsoReg} {gcs : List String}
    {lang : Languoid} {pl : Level} {i : String} :
    Diag.invalidNestingUnder pl i ∈ checkNode iso gcs lang ↔
      Diag.invalidNestingUnder pl i ∈ nestingChecks lang := by
  simp only [checkNode, List.mem_append]
  constructor
  · rintro ((((h | h) | h) | h) | h)
    · rcases isoChecks_mem_shape h with ⟨_, _, he⟩ | ⟨_, _, he⟩ <;> simp at he
    · have he := registryCheck_mem_shape h
      simp at he
    · obtain ⟨a, he⟩ := attrChecks_mem_shape h
      simp at he
    · have he := dirNameCheck_mem_shape h
      simp at he
    · exact h
  · intro h
    exact Or.inr h

theorem nestingOf_mem_checkNode {iso : Option IsoReg} {gcs : List String}
    {lang : Languoid} {cl : Level} {ci : String} :
    Diag.invalidNestingOf cl ci ∈ checkNode iso gcs lang ↔
      Diag.invalidNestingOf cl ci ∈ nestingChecks lang := by
  simp only [checkNode, List.mem_append]
  constructor
  · rintro ((((h | h) | h) | h) | h)
    · rcases isoChecks_mem_shape h with ⟨_, _, he⟩ | ⟨_, _, he⟩ <;> simp at he
    · have he := registryCheck_mem_shape h
      simp at he
    · obtain ⟨a, he⟩ := attrChecks_mem_shape h
      simp at he
    · have he := dirNameCheck_mem_shape h
      simp at he
    · exact h
  · intro h
    exact Or.inr h

/-- C2 (amended): the check_tree loop maintains the by-level counter with
one update per languoid and the by-category counter with one update per
language-level languoid, and the function returns only the by-level
counter to the caller. -/
theorem check_tree_counters_and_return (iso : Option IsoReg) (gcs : List String)
    (langs : List Languoid) :
    (checkTreeRun iso gcs langs).by_level = langs.map (fun l => l.level.lvlName) ∧
    (checkTreeRun iso gcs langs).by_category
      = (langs.filter (fun l => l.level == Level.language)).map (fun l => l.category) ∧
    check_tree iso gcs langs = (checkTreeRun iso gcs langs).by_level := by
  refine ⟨?_, ?_, rfl⟩
  · simpa [checkTreeRun] using foldl_checkStep_by_level iso gcs langs ⟨[], [], []⟩
  · simpa [checkTreeRun] using foldl_checkStep_by_category iso gcs langs ⟨[], [], []⟩

/-- C2, counterexample to the claim as stated: two single-node forests on
which check_tree returns the same value although their diagnostics and
their by-category counters differ, so the returned value cannot carry the
full diagnostics list plus both counters. -/
theorem check_tree_return_value_cex :
    check_tree none ["aaaa1111"]
        [⟨"aaaa1111", "L1", "aaaa1111", Level.language, "catA", none,
          some Level.family, [], "aaaa1111", []⟩]
      = check_tree none ["aaaa1111"]
        [⟨"bbbb2222", "L2", "bbbb2222", Level.language, "catB", none,
          some Level.family, [], "bbbb2222", []⟩] ∧
    (checkTreeRun none ["aaaa1111"]
        [⟨"aaaa1111", "L1", "aaaa1111", Level.language, "catA", none,
          some Level.family, [], "aaaa1111", []⟩]).by_category
      ≠ (checkTreeRun none ["aaaa1111"]
        [⟨"bbbb2222", "L2", "bbbb2222", Level.language, "catB", none,
          some Level.family, [], "bbbb2222", []⟩]).by_category ∧
    (checkTreeRun none ["aaaa1111"]
        [⟨"aaaa1111", "L1", "aaaa1111", Level.language, "catA", none,
          some Level.family, [], "aaaa1111", []⟩]).diags
      ≠ (checkTreeRun none ["aaaa1111"]
        [⟨"bbbb2222", "L2", "bbbb2222", Level.language, "catB", none,
          some Level.family, [], "bbbb2222", []⟩]).diags := by
  refine ⟨by decide, by decide, by decide⟩

/-- C8: the check_tree loop visits every languoid exactly once — the
by-level counter receives exactly one update per languoid in iteration
order and the diagnostics stream is the concatenation of every node's
diagnostics — regardless of how many warnings or errors are produced. -/
theorem check_tree_visits_all (iso : Option IsoReg) (gcs : List String)
    (langs : List Languoid) :
    (checkTreeRun iso gcs langs).by_level.length = langs.length ∧
    (checkTreeRun iso gcs langs).by_level = langs.map (fun l => l.level.lvlName) ∧
    (checkTreeRun iso gcs langs).diags = langs.flatMap (checkNode iso gcs) := by
  have hd := foldl_checkStep_diags iso gcs langs ⟨[], [], []⟩
  have hl := foldl_checkStep_by_level iso gcs langs ⟨[], [], []⟩
  refine ⟨?_, ?_, ?_⟩ <;> simp [checkTreeRun, hd, hl]

/-- C4: for a node whose identifier does not carry the ununidentified
marker, the unregistered-glottocode diagnostic (an Error-class
diagnostic) is logged exactly when the identifier is missing from the
glottocode registry. -/
theorem registry_check_iff (iso : Option IsoReg) (gcs : List String) (lang : Languoid)
    (hex : pyStartswith lang.id "unun9" = false) :
    (Diag.unregistered lang.id ∈ checkNode iso gcs lang ↔ lang.id ∉ gcs) ∧
    (Diag.unregistered lang.id).sev = Sev.error := by
  refine ⟨?_, rfl⟩
  rw [unregistered_mem_checkNode]
  unfold registryCheck
  constructor
  · intro h
    split at h
    · rename_i hcond
      exact hcond.2
    · simp at h
  · intro h
    rw [if_pos ⟨hex, h⟩]
    simp

/-- C4 witness: a concrete unregistered non-exempt node. -/
theorem registry_check_iff_witness :
    pyStartswith "abcd1234" "unun9" = false ∧
    ((Diag.unregistered "abcd1234" ∈ checkNode none []
        ⟨"abcd1234", "X", "abcd1234", Level.dialect, "", none, none, [], "abcd1234", []⟩
      ↔ "abcd1234" ∉ ([] : List String)) ∧
     (Diag.unregistered "abcd1234").sev = Sev.error) :=
  ⟨by decide, registry_check_iff none []
    ⟨"abcd1234", "X", "abcd1234", Level.dialect, "", none, none, [], "abcd1234", []⟩
    (by decide)⟩

/-- C3, counterexample to the claim as stated: a node whose directory
base name differs from its identifier but still matches the glottocode
pattern receives no diagnostic at all — the code compares the directory
name against the pattern, not against the identifier. -/
theorem dir_name_check_cex :
    (⟨"abcd1234", "X", "abcd1234", Level.dialect, "", none, none, [],
        "wxyz9999", []⟩ : Languoid).dirName
      ≠ (⟨"abcd1234", "X", "abcd1234", Level.dialect, "", none, none, [],
        "wxyz9999", []⟩ : Languoid).id ∧
    checkNode none ["abcd1234"]
      ⟨"abcd1234", "X", "abcd1234", Level.dialect, "", none, none, [],
        "wxyz9999", []⟩ = [] := by
  refine ⟨by decide, by decide⟩

/-- C3 (amended): the invalid-directory-name diagnostic — which
references the directory name, not the node's identifier — is logged
exactly when the directory base name fails to match the glottocode
pattern (with no exemption for any node); and a node passing every check
of the loop receives zero diagnostics. -/
theorem dir_name_pattern_check (iso : Option IsoReg) (gcs : List String)
    (lang : Languoid) :
    (Diag.invalidDirName lang.dirName ∈ checkNode iso gcs lang ↔
      glottocodePattern lang.dirName = false) ∧
    (passesAllChecks gcs lang → checkNode iso gcs lang = []) := by
  constructor
  · rw [invalidDirName_mem_checkNode]
    unfold dirNameCheck
    constructor
    · intro h
      split at h
      · simp at h
      · rename_i hcond
        simp at hcond
        exact hcond
    · intro h
      rw [if_neg]
      · simp
      · simp [h]
  · rintro ⟨hiso, hreg, hname, hgc, hdir, hlang, hfam⟩
    have h1 : isoChecks iso lang = [] := by
      cases iso with
      | none => rfl
      | some reg => simp [isoChecks, hiso]
    have h2 : registryCheck gcs lang = [] := by
      unfold registryCheck
      rw [if_neg]
      intro hcon
      exact hcon.2 hreg
    have h3 : attrChecks lang = [] := by
      simp [attrChecks, hname, hgc]
    have h4 : dirNameCheck lang = [] := by
      simp [dirNameCheck, hdir]
    have h5 : nestingChecks lang = [] := by
      unfold nestingChecks
      cases hl : lang.level with
      | language =>
        obtain ⟨hp, hc⟩ := hlang hl
        have hpar : (match lang.parentLevel with
            | some pl => if pl ≠ Level.family then [Diag.invalidNestingUnder pl lang.id] else []
            | none => []) = [] := by
          rcases hp with hp | hp
          · rw [hp]
          · rw [hp]
            simp
        rw [hpar]
        simp only [List.nil_append]
        exact List.flatMap_eq_nil_iff.2 (fun c hcm => by simp [hc c hcm])
      | family =>
        rw [hfam hl]
        simp
      | dialect => rfl
    simp [checkNode, h1, h2, h3, h4, h5]

/-- C3 witness: a fully clean concrete node. -/
theorem dir_name_pattern_check_witness :
    ((Diag.invalidDirName "abcd1234" ∈ checkNode none ["abcd1234"]
        ⟨"abcd1234", "X", "abcd1234", Level.dialect, "", none, none, [],
          "abcd1234", []⟩
      ↔ glottocodePattern "abcd1234" = false) ∧
     (passesAllChecks ["abcd1234"]
        ⟨"abcd1234", "X", "abcd1234", Level.dialect, "", none, none, [],
          "abcd1234", []⟩ →
      checkNode none ["abcd1234"]
        ⟨"abcd1234", "X", "abcd1234", Level.dialect, "", none, none, [],
          "abcd1234", []⟩ = [])) ∧
    passesAllChecks ["abcd1234"]
      ⟨"abcd1234", "X", "abcd1234", Level.dialect, "", none, none, [],
        "abcd1234", []⟩ :=
  ⟨dir_name_pattern_check none ["abcd1234"]
    ⟨"abcd1234", "X", "abcd1234", Level.dialect, "", none, none, [],
      "abcd1234", []⟩,
   by
     unfold passesAllChecks
     refine ⟨rfl, by decide, by decide, by decide, by decide, ?_, ?_⟩
     all_goals (intro h; simp at h)⟩

/-- C5: with an external ISO registry present, a node whose code resolves
to a retired record and whose category is not Bookkeeping gets the
retired-code diagnostic, a Warning-class (not Error-class) one; with no
registry supplied, no ISO diagnostic of either kind is ever logged for
any node. -/
theorem iso_retired_warning (reg : IsoReg) (gcs : List String) (lang : Languoid)
    (c : String) (ic : IsoCode) (hiso : lang.iso = some c) (hc : c ≠ "")
    (hfound : reg c = some ic) (hret : ic.is_retired = true)
    (hcat : lang.category ≠ "Bookkeeping") :
    (Diag.retiredIso lang.id ic ∈ checkNode (some reg) gcs lang ∧
      (Diag.retiredIso lang.id ic).sev = Sev.warning) ∧
    ∀ (gcs' : List String) (lang' : Languoid) (d : Diag),
      d ∈ checkNode none gcs' lang' →
        (∀ i c', d ≠ Diag.invalidIso i c') ∧ ∀ i ic', d ≠ Diag.retiredIso i ic' := by
  constructor
  · refine ⟨?_, rfl⟩
    simp only [checkNode, List.mem_append]
    refine Or.inl (Or.inl (Or.inl (Or.inl ?_)))
    have he : isoChecks (some reg) lang = [Diag.retiredIso lang.id ic] := by
      show (match lang.iso with
        | none => []
        | some c =>
          if c = "" then []
          else
            match reg c with
            | none => [Diag.invalidIso lang.id c]
            | some ic =>
              if ic.is_retired ∧ lang.category ≠ "Bookkeeping" then
                [Diag.retiredIso lang.id ic]
              else []) = _
      rw [hiso]
      simp only [if_neg hc]
      rw [hfound]
      simp only [if_pos (And.intro hret hcat)]
    rw [he]
    simp
  · intro gcs' lang' d hd
    simp only [checkNode, List.mem_append] at hd
    rcases hd with ((((hd | hd) | hd) | hd) | hd)
    · simp [isoChecks] at hd
    · rw [registryCheck_mem_shape hd]
      exact ⟨fun i c' => by simp, fun i ic' => by simp⟩
    · obtain ⟨a, ha⟩ := attrChecks_mem_shape hd
      rw [ha]
      exact ⟨fun i c' => by simp, fun i ic' => by simp⟩
    · rw [dirNameCheck_mem_shape hd]
      exact ⟨fun i c' => by simp, fun i ic' => by simp⟩
    · rcases nestingChecks_mem_shape hd with ⟨pl, hn⟩ | ⟨l, i, hn⟩ | hn <;> rw [hn] <;>
        exact ⟨fun i c' => by simp, fun i ic' => by simp⟩

/-- C5 witness: one retired ISO code on a non-Bookkeeping language. -/
theorem iso_retired_warning_witness :
    ((⟨"wolo1235", "Wolof", "wolo1235", Level.language, "spurious",
        some "wol", some Level.family, [], "wolo1235", []⟩ : Languoid).iso
        = some "wol") ∧
    ("wol" : String) ≠ "" ∧
    ((fun c => if c = "wol" then some (⟨true, []⟩ : IsoCode) else none) : IsoReg) "wol"
        = some ⟨true, []⟩ ∧
    (⟨true, []⟩ : IsoCode).is_retired = true ∧
    ((⟨"wolo1235", "Wolof", "wolo1235", Level.language, "spurious",
        some "wol", some Level.family, [], "wolo1235", []⟩ : Languoid).category
        ≠ "Bookkeeping") ∧
    ((Diag.retiredIso "wolo1235" ⟨true, []⟩ ∈ checkNode
        (some (fun c => if c = "wol" then some ⟨true, []⟩ else none)) ["wolo1235"]
        ⟨"wolo1235", "Wolof", "wolo1235", Level.language, "spurious",
          some "wol", some Level.family, [], "wolo1235", []⟩ ∧
      (Diag.retiredIso "wolo1235" ⟨true, []⟩).sev = Sev.warning) ∧
     ∀ (gcs' : List String) (lang' : Languoid) (d : Diag),
       d ∈ checkNode none gcs' lang' →
         (∀ i c', d ≠ Diag.invalidIso i c') ∧ ∀ i ic', d ≠ Diag.retiredIso i ic') :=
  ⟨rfl, by decide, by decide, rfl, by decide,
   iso_retired_warning (fun c => if c = "wol" then some ⟨true, []⟩ else none)
     ["wolo1235"]
     ⟨"wolo1235", "Wolof", "wolo1235", Level.language, "spurious",
       some "wol", some Level.family, [], "wolo1235", []⟩
     "wol" ⟨true, []⟩ rfl (by decide) (by decide) rfl (by decide)⟩

/-- C6: a family-level node whose directory holds no subdirectory, and
which passes every other check of the loop, receives exactly the
family-without-children diagnostic (an Error-class one) and nothing
else. -/
theorem family_without_children_diag (iso : Option IsoReg) (gcs : List String)
    (lang : Languoid) (hlev : lang.level = Level.family)
    (hnochild : lang.dirEntries.any (fun b => b) = false)
    (hiso : lang.iso = none) (hreg : lang.id ∈ gcs)
    (hname : lang.name ≠ "") (hgc : lang.glottocode ≠ "")
    (hdir : glottocodePattern lang.dirName = true) :
    checkNode iso gcs lang = [Diag.familyWithoutChildren lang.id] ∧
    (Diag.familyWithoutChildren lang.id).sev = Sev.error := by
  refine ⟨?_, rfl⟩
  have h1 : isoChecks iso lang = [] := by
    cases iso with
    | none => rfl
    | some reg => simp [isoChecks, hiso]
  have h2 : registryCheck gcs lang = [] := by
    unfold registryCheck
    rw [if_neg]
    intro hcon
    exact hcon.2 hreg
  have h3 : attrChecks lang = [] := by
    simp [attrChecks, hname, hgc]
  have h4 : dirNameCheck lang = [] := by
    simp [dirNameCheck, hdir]
  have h5 : nestingChecks lang = [Diag.familyWithoutChildren lang.id] := by
    unfold nestingChecks
    rw [hlev]
    simp [hnochild]
  simp [checkNode, h1, h2, h3, h4, h5]

/-- C6 witness: a concrete childless family directory. -/
theorem family_without_children_diag_witness :
    ((⟨"atla1234", "Atlantic", "atla1234", Level.family, "", none, none, [],
        "atla1234", [false]⟩ : Languoid).level = Level.family) ∧
    ((⟨"atla1234", "Atlantic", "atla1234", Level.family, "", none, none, [],
        "atla1234", [false]⟩ : Languoid).dirEntries.any (fun b => b) = false) ∧
    (checkNode none ["atla1234"]
        ⟨"atla1234", "Atlantic", "atla1234", Level.family, "", none, none, [],
          "atla1234", [false]⟩
      = [Diag.familyWithoutChildren "atla1234"] ∧
     (Diag.familyWithoutChildren "atla1234").sev = Sev.error) :=
  ⟨rfl, by decide,
   family_without_children_diag none ["atla1234"]
     ⟨"atla1234", "Atlantic", "atla1234", Level.family, "", none, none, [],
       "atla1234", [false]⟩
     rfl (by decide) rfl (by decide) (by decide) (by decide) (by decide)⟩

/-- C7: for a language-level node, the invalid-parent diagnostic is
logged exactly when a parent is present and is not family-level, an
invalid-child diagnostic is logged for every child that is not
dialect-level, and a node with a family-level parent and all-dialect
children triggers neither kind of diagnostic. -/
theorem language_nesting_checks (iso : Option IsoReg) (gcs : List String)
    (lang : Languoid) (hlev : lang.level = Level.language) :
    (∀ pl, lang.parentLevel = some pl →
      (Diag.invalidNestingUnder pl lang.id ∈ checkNode iso gcs lang ↔
        pl ≠ Level.family)) ∧
    (∀ c ∈ lang.children, c.level ≠ Level.dialect →
      Diag.invalidNestingOf c.level c.id ∈ checkNode iso gcs lang) ∧
    (lang.parentLevel = some Level.family →
      (∀ c ∈ lang.children, c.level = Level.dialect) →
      (∀ pl i, Diag.invalidNestingUnder pl i ∉ checkNode iso gcs lang) ∧
      (∀ cl ci, Diag.invalidNestingOf cl ci ∉ checkNode iso gcs lang)) := by
  have hnest : nestingChecks lang =
      (match lang.parentLevel with
       | some pl => if pl ≠ Level.family then [Diag.invalidNestingUnder pl lang.id] else []
       | none => [])
        ++ lang.children.flatMap (fun c =>
            if c.level ≠ Level.dialect then [Diag.invalidNestingOf c.level c.id] else []) := by
    unfold nestingChecks
    rw [hlev]
  refine ⟨?_, ?_, ?_⟩
  · intro pl hp
    rw [nestingUnder_mem_checkNode, hnest, hp]
    show Diag.invalidNestingUnder pl lang.id ∈
        (if pl ≠ Level.family then [Diag.invalidNestingUnder pl lang.id] else [])
          ++ lang.children.flatMap (fun c =>
              if c.level ≠ Level.dialect then [Diag.invalidNestingOf c.level c.id] else [])
        ↔ pl ≠ Level.family
    constructor
    · intro h
      rcases List.mem_append.1 h with h | h
      · by_cases hf : pl ≠ Level.family
        · exact hf
        · rw [if_neg hf] at h
          simp at h
      · rcases List.mem_flatMap.1 h with ⟨c, _, hc⟩
        split at hc
        · simp at hc
        · simp at hc
    · intro h
      apply List.mem_append.2
      left
      rw [if_pos h]
      simp
  · intro c hcm hcl
    rw [nestingOf_mem_checkNode, hnest]
    apply List.mem_append.2
    right
    apply List.mem_flatMap.2
    refine ⟨c, hcm, ?_⟩
    rw [if_pos hcl]
    simp
  · intro hp hall
    constructor
    · intro pl i h
      rw [nestingUnder_mem_checkNode, hnest, hp] at h
      simp at h
    · intro cl ci h
      rw [nestingOf_mem_checkNode, hnest, hp] at h
      simp at h
      rcases h with ⟨c, hcm, hcl, -⟩
      exact hcl (hall c hcm)

/-- C7 witness: a language with one non-family parent and one
non-dialect child. -/
theorem language_nesting_checks_witness :
    ((⟨"wolo1235", "Wolof", "wolo1235", Level.language, "", none,
        some Level.dialect, [⟨"chld1236", Level.language⟩], "wolo1235",
        []⟩ : Languoid).level = Level.language) ∧
    ((∀ pl, (⟨"wolo1235", "Wolof", "wolo1235", Level.language, "", none,
        some Level.dialect, [⟨"chld1236", Level.language⟩], "wolo1235",
        []⟩ : Languoid).parentLevel = some pl →
      (Diag.invalidNestingUnder pl "wolo1235" ∈ checkNode none ["wolo1235"]
        ⟨"wolo1235", "Wolof", "wolo1235", Level.language, "", none,
          some Level.dialect, [⟨"chld1236", Level.language⟩], "wolo1235",
          []⟩ ↔ pl ≠ Level.family)) ∧
    (∀ c ∈ (⟨"wolo1235", "Wolof", "wolo1235", Level.language, "", none,
        some Level.dialect, [⟨"chld1236", Level.language⟩], "wolo1235",
        []⟩ : Languoid).children, c.level ≠ Level.dialect →
      Diag.invalidNestingOf c.level c.id ∈ checkNode none ["wolo1235"]
        ⟨"wolo1235", "Wolof", "wolo1235", Level.language, "", none,
          some Level.dialect, [⟨"chld1236", Level.language⟩], "wolo1235",
          []⟩) ∧
    ((⟨"wolo1235", "Wolof", "wolo1235", Level.language, "", none,
        some Level.dialect, [⟨"chld1236", Level.language⟩], "wolo1235",
        []⟩ : Languoid).parentLevel = some Level.family →
      (∀ c ∈ (⟨"wolo1235", "Wolof", "wolo1235", Level.language, "", none,
        some Level.dialect, [⟨"chld1236", Level.language⟩], "wolo1235",
        []⟩ : Languoid).children, c.level = Level.dialect) →
      (∀ pl i, Diag.invalidNestingUnder pl i ∉ checkNode none ["wolo1235"]
        ⟨"wolo1235", "Wolof", "wolo1235", Level.language, "", none,
          some Level.dialect, [⟨"chld1236", Level.language⟩], "wolo1235",
          []⟩) ∧
      (∀ cl ci, Diag.invalidNestingOf cl ci ∉ checkNode none ["wolo1235"]
        ⟨"wolo1235", "Wolof", "wolo1235", Level.language, "", none,
          some Level.dialect, [⟨"chld1236", Level.language⟩], "wolo1235",
          []⟩))) :=
  ⟨rfl,
   language_nesting_checks none ["wolo1235"]
     ⟨"wolo1235", "Wolof", "wolo1235", Level.language, "", none,
       some Level.dialect, [⟨"chld1236", Level.language⟩], "wolo1235", []⟩
     rfl⟩

/-- C1 witness: the concrete Atlantic/Wolof forest of spec section 8
with the no-dialect-descendants partition. -/
theorem decode_encode_roundtrip_witness :
    (forestIds sampleForest).Nodup ∧
    ∃ G, decode (encode sampleForest sampleClassify).1
        (encode sampleForest sampleClassify).2 = Except.ok G ∧
      List.Perm G sampleForest :=
  ⟨by simp only [sampleForest, forestIds, treeIds]; decide,
   decode_encode_roundtrip sampleForest sampleClassify
     (by simp only [sampleForest, forestIds, treeIds]; decide)⟩

/-- C9: invoking recode with a glottocode for which no languoid exists
aborts with the ParserError message and performs no filesystem action:
nothing is copied, written or removed. -/
theorem recode_missing_languoid (fromName : String → String) (code : String) :
    recode fromName none code = Except.error "languoid not found" ∧
    fsActions (recode fromName none code) = [] :=
  ⟨rfl, rfl⟩

theorem statsOps_ov_foldl (s : String) :
    ∀ (ovs : List (String × String)) (acc : List (String × String)),
      ovs.foldl (fun acc3 ov => if ov.2 ≠ "" then acc3 ++ [(s, ov.1)] else acc3) acc
        = acc ++ (ovs.filter (fun ov => !(ov.2 == ""))).map (fun ov => (s, ov.1)) := by
  intro ovs
  induction ovs with
  | nil => intro acc; simp
  | cons ov ovs ih =>
    intro acc
    rw [List.foldl_cons]
    by_cases h : ov.2 = ""
    · rw [if_neg (not_not_intro h), ih]
      simp [List.filter_cons, h]
    · rw [if_pos h, ih]
      simp [List.filter_cons, h]

theorem statsOps_sec_foldl :
    ∀ (cfg : Cfg) (acc : List (String × String)),
      cfg.foldl (fun acc2 sec =>
        sec.2.foldl (fun acc3 ov =>
          if ov.2 ≠ "" then acc3 ++ [(sec.1, ov.1)] else acc3) acc2) acc
        = acc ++ cfg.flatMap (fun sec =>
            (sec.2.filter (fun ov => !(ov.2 == ""))).map (fun ov => (sec.1, ov.1))) := by
  intro cfg
  induction cfg with
  | nil => intro acc; simp
  | cons sec cfg ih =>
    intro acc
    simp only [List.foldl_cons]
    rw [statsOps_ov_foldl, ih, List.flatMap_cons, List.append_assoc]

theorem statsOps_lang_foldl :
    ∀ (langs : List Cfg) (acc : List (String × String)),
      langs.foldl (fun acc cfg =>
        cfg.foldl (fun acc2 sec =>
          sec.2.foldl (fun acc3 ov =>
            if ov.2 ≠ "" then acc3 ++ [(sec.1, ov.1)] else acc3) acc2) acc) acc
        = acc ++ langs.flatMap (fun cfg =>
            cfg.flatMap (fun sec =>
              (sec.2.filter (fun ov => !(ov.2 == ""))).map (fun ov => (sec.1, ov.1)))) := by
  intro langs
  induction langs with
  | nil => intro acc; simp
  | cons cfg langs ih =>
    intro acc
    simp only [List.foldl_cons]
    rw [statsOps_sec_foldl, ih, List.flatMap_cons, List.append_assoc]

/-- C10: the stats loops issue one counter update for a section/option
pair exactly when the stored value is non-empty — the update stream is
precisely the nonempty-valued entries, in order, so empty-valued options
are excluded from the statistics. -/
theorem stats_counts_nonempty_values (langs : List Cfg) :
    statsOps langs = langs.flatMap (fun cfg =>
      cfg.flatMap (fun sec =>
        (sec.2.filter (fun ov => !(ov.2 == ""))).map (fun ov => (sec.1, ov.1)))) := by
  simpa [statsOps] using statsOps_lang_foldl langs []
